import Mathlib

set_option maxRecDepth 40000

/-!
Verification development for the red-detection pipeline in `src/main.rs`.

The Rust program pulls BGR frames from an appsink, validates the buffer
length, converts to HSV (`cvtColor COLOR_BGR2HSV`), thresholds two hue
ranges with `inRange` and combines them with `bitwise_or`, denoises with
`morphologyEx MORPH_OPEN` then `MORPH_CLOSE` (5×5 `MORPH_ELLIPSE` kernel,
anchor at the centre, one iteration, `BORDER_DEFAULT`), finds external
contours (`findContours RETR_EXTERNAL CHAIN_APPROX_SIMPLE`), selects the
contour with the largest `contourArea`, draws its `boundingRect` and the
point `(x + width/2, y + height/2)`, and stops on the quit key or when the
frame counter reaches 361.

The per-pixel numeric routines delegated by the source to OpenCV are
embedded below following OpenCV's fixed-point 8-bit algorithms, with the
concrete parameters the Rust code passes.
-/

namespace RsCam

/-! ## ColorModel: OpenCV `cvtColor COLOR_BGR2HSV` for 8-bit pixels.

OpenCV computes 8-bit HSV with fixed-point tables (`hsv_shift = 12`):
`sdiv_table[i] = cvRound((255 << 12) / i)` and
`hdiv_table[i] = cvRound((180 << 12) / (6 * i))`, with entry 0 equal to 0.
Neither table has an exact-half rounding case for `1 ≤ i ≤ 255`, so
`cvRound` coincides with round-half-up, i.e. `(2 * N + i) / (2 * i)`. -/

/-- OpenCV saturation division table: `cvRound(1044480 / i)` (0 at 0). -/
def sdivTable (i : Nat) : Nat := if i = 0 then 0 else (2088960 + i) / (2 * i)

/-- OpenCV hue division table: `cvRound(122880 / i)` (0 at 0). -/
def hdivTable (i : Nat) : Nat := if i = 0 then 0 else (245760 + i) / (2 * i)

/-- An HSV pixel as produced by 8-bit `cvtColor`: `h ∈ [0,179]`, `s, v ∈ [0,255]`. -/
structure Hsv where
  h : Nat
  s : Nat
  v : Nat
deriving DecidableEq, Repr

/-- OpenCV 8-bit BGR→HSV conversion: `v = max`, `s = (diff * sdiv[v] + 2048) >> 12`,
hue from the six-sector formula with the `v == r`, then `v == g` tie order,
`h = (hraw * hdiv[diff] + 2048) >> 12` (arithmetic shift, i.e. floor division),
plus 180 when negative, then saturate-cast to `u8`. -/
def bgr2hsv (b g r : Nat) : Hsv :=
  let v := max b (max g r)
  let vmin := min b (min g r)
  let diff := v - vmin
  let s := (diff * sdivTable v + 2048) / 4096
  let hraw : Int :=
    if v = r then (g : Int) - (b : Int)
    else if v = g then (b : Int) - (r : Int) + 2 * (diff : Int)
    else (r : Int) - (g : Int) + 4 * (diff : Int)
  let h1 : Int := (hraw * (hdivTable diff : Int) + 2048).fdiv 4096
  let h2 : Int := if h1 < 0 then h1 + 180 else h1
  ⟨min h2.toNat 255, s, v⟩

/-! ## Segmenter: the two `inRange` calls and their `bitwise_or`.

The Rust code thresholds `(0,120,70)–(10,255,255)` and
`(170,120,70)–(180,255,255)`; `inRange` is inclusive on both ends. -/

/-- First `inRange` mask: hue `[0,10]`, saturation `[120,255]`, value `[70,255]`. -/
def inRange1 (p : Hsv) : Bool :=
  decide (p.h ≤ 10 ∧ 120 ≤ p.s ∧ p.s ≤ 255 ∧ 70 ≤ p.v ∧ p.v ≤ 255)

/-- Second `inRange` mask: hue `[170,180]`, saturation `[120,255]`, value `[70,255]`. -/
def inRange2 (p : Hsv) : Bool :=
  decide (170 ≤ p.h ∧ p.h ≤ 180 ∧ 120 ≤ p.s ∧ p.s ≤ 255 ∧ 70 ≤ p.v ∧ p.v ≤ 255)

/-- Per-pixel foreground test of the combined mask (`bitwise_or` of the two masks). -/
def redHsv (p : Hsv) : Bool := inRange1 p || inRange2 p

/-- Foreground test on a BGR pixel: convert to HSV, then the two-range union. -/
def redPixel (b g r : Nat) : Bool := redHsv (bgr2hsv b g r)

/-- Segmentation of a whole image (image given as `(x, y) ↦ (b, g, r)`). -/
def redMask (img : Nat → Nat → Nat × Nat × Nat) (x y : Nat) : Bool :=
  redPixel (img x y).1 (img x y).2.1 (img x y).2.2

/-! ## NoiseFilter: `morphologyEx` open then close.

Kernel: `getStructuringElement(MORPH_ELLIPSE, Size(5,5))`, whose support is
the centre column for rows ±2 and full rows for offsets −1, 0, 1.
Border: the Rust code passes `core::BORDER_DEFAULT`, which is
`BORDER_REFLECT_101` (`gfedcb|abcdefgh|gfedcba`); the `borderValue`
argument is ignored for non-constant borders. -/

/-- The support of OpenCV's 5×5 `MORPH_ELLIPSE` structuring element, as
`(dx, dy)` offsets from the centre anchor. -/
def kOffsets : List (Int × Int) :=
  [(0, -2),
   (-2, -1), (-1, -1), (0, -1), (1, -1), (2, -1),
   (-2, 0), (-1, 0), (0, 0), (1, 0), (2, 0),
   (-2, 1), (-1, 1), (0, 1), (1, 1), (2, 1),
   (0, 2)]

/-- One step of OpenCV `borderInterpolate` for `BORDER_REFLECT_101`. -/
def reflectOnce (len : Nat) (p : Int) : Int :=
  if p < 0 then -p else if (len : Int) ≤ p then 2 * (len : Int) - 2 - p else p

/-- OpenCV `borderInterpolate(p, len, BORDER_REFLECT_101)`: 0 when `len = 1`,
otherwise reflect without repeating the border pixel.  Two reflection steps
suffice for every index the 5×5 kernel can produce (`-2 ≤ p ≤ len + 1`). -/
def reflect101 (len : Nat) (p : Int) : Nat :=
  if len = 1 then 0 else (reflectOnce len (reflectOnce len p)).toNat

/-- Erosion of a `w × h` binary mask by the 5×5 ellipse, reflect-101 border. -/
def erodeM (w h : Nat) (m : Nat → Nat → Bool) (x y : Nat) : Bool :=
  kOffsets.all fun d => m (reflect101 w ((x : Int) + d.1)) (reflect101 h ((y : Int) + d.2))

/-- Dilation of a `w × h` binary mask by the 5×5 ellipse, reflect-101 border. -/
def dilateM (w h : Nat) (m : Nat → Nat → Bool) (x y : Nat) : Bool :=
  kOffsets.any fun d => m (reflect101 w ((x : Int) + d.1)) (reflect101 h ((y : Int) + d.2))

/-- `MORPH_OPEN`: erosion followed by dilation. -/
def morphOpen (w h : Nat) (m : Nat → Nat → Bool) : Nat → Nat → Bool :=
  dilateM w h (erodeM w h m)

/-- `MORPH_CLOSE`: dilation followed by erosion. -/
def morphClose (w h : Nat) (m : Nat → Nat → Bool) : Nat → Nat → Bool :=
  erodeM w h (dilateM w h m)

/-- The noise filter of the source: open, then close, one iteration each. -/
def noiseFilter (w h : Nat) (m : Nat → Nat → Bool) : Nat → Nat → Bool :=
  morphClose w h (morphOpen w h m)

/-! ## RegionExtractor: `findContours(RETR_EXTERNAL, CHAIN_APPROX_SIMPLE)`.

We model the Suzuki–Abe outer-border following used by OpenCV
(`icvFetchContour`): from a start pixel found by the raster scan
(foreground with background to its left), the initial neighbour search
runs clockwise from direction 3 (up-left); the main loop searches
counter-clockwise from one past the backtrack direction and stops on
re-entering the start pixel the same way.  We record every visited border
pixel (as `CHAIN_APPROX_NONE` would); `CHAIN_APPROX_SIMPLE` only drops
intermediate collinear points, which changes neither `boundingRect` nor
`contourArea`, the only two consumers in the source. -/

/-- Integer pixel coordinates `(x, y)`. -/
abbrev Pt := Int × Int

/-- OpenCV chain-code direction deltas (`icvCodeDeltas`): 0 = east,
counter-clockwise in image coordinates (y grows downwards). -/
def delta (s : Nat) : Pt :=
  [((1 : Int), (0 : Int)), (1, -1), (0, -1), (-1, -1), (-1, 0), (-1, 1), (0, 1), (1, 1)].getD (s % 8) (0, 0)

/-- Pointwise sum of two coordinate pairs. -/
def addPt (p q : Pt) : Pt := (p.1 + q.1, p.2 + q.2)

/-- Sampling a mask as `findContours` does: pixels outside the image are
background. -/
def sampleM (w h : Nat) (m : Nat → Nat → Bool) (p : Pt) : Bool :=
  decide (0 ≤ p.1 ∧ p.1 < (w : Int) ∧ 0 ≤ p.2 ∧ p.2 < (h : Int)) && m p.1.toNat p.2.toNat

/-- Counter-clockwise neighbour search from one past direction `s`, at most
`k` candidates: the inner loop of `icvFetchContour`. -/
def searchCCW (g : Pt → Bool) (p : Pt) : Nat → Nat → Option (Nat × Pt)
  | _, 0 => none
  | s, k + 1 =>
    let t := (s + 1) % 8
    let q := addPt p (delta t)
    if g q then some (t, q) else searchCCW g p t k

/-- Main loop of `icvFetchContour`: emit the current pixel, move to the
first counter-clockwise foreground neighbour after the backtrack
direction, and stop when about to re-enter the start pixel `i0` from the
first traced pixel `i1`. -/
def traceLoop (g : Pt → Bool) (i0 i1 : Pt) : Nat → Pt → Nat → List Pt → List Pt
  | 0, i3, _, acc => (i3 :: acc).reverse
  | fuel + 1, i3, s, acc =>
    match searchCCW g i3 s 8 with
    | none => (i3 :: acc).reverse
    | some (t, i4) =>
      if i4 = i0 ∧ i3 = i1 then ((i3 :: acc)).reverse
      else traceLoop g i0 i1 fuel i4 ((t + 4) % 8) (i3 :: acc)

/-- Border following from a raster-scan start pixel: the initial clockwise
search tests directions 3, 2, 1, 0, 7, 6, 5 (direction 4, the left
neighbour, is background by the scan condition); if none is foreground the
contour is the single pixel. -/
def traceFrom (g : Pt → Bool) (p : Pt) (fuel : Nat) : List Pt :=
  match [3, 2, 1, 0, 7, 6, 5].find? (fun s => g (addPt p (delta s))) with
  | none => [p]
  | some s => traceLoop g p (addPt p (delta s)) fuel p s []

/-- One raster-scan step (one pixel): a pixel starts a new outer contour
when it is foreground, its left neighbour is background, and it does not
lie on an already traced contour (Suzuki–Abe marks traced border pixels;
for hole-free masks the two bookkeepings agree).  Each new contour is
prepended: OpenCV inserts every fetched contour at the head of the frame
node's child list (`cvInsertNodeIntoTree`) and `cvEndFindContours` emits
the top-level contours from that list, so `findContours` returns them in
reverse discovery order (last found first, bottom-to-top for the raster
scan). -/
def scanStep (g : Pt → Bool) (fuel : Nat) (cs : List (List Pt)) (p : Pt) : List (List Pt) :=
  if g p ∧ g (addPt p (-1, 0)) = false ∧ (∀ c ∈ cs, p ∉ c)
  then traceFrom g p fuel :: cs
  else cs

/-- Scan one row `y`, left to right. -/
def scanRow (g : Pt → Bool) (fuel w : Nat) (y : Nat) (cs : List (List Pt)) : List (List Pt) :=
  (List.range w).foldl (fun cs2 x => scanStep g fuel cs2 (Int.ofNat x, Int.ofNat y)) cs

/-- Scan `n` consecutive rows starting at row `y0`, top to bottom: together
with `scanRow` this is the row-major raster scan of `findContours`. -/
def scanRows (g : Pt → Bool) (fuel w : Nat) : Nat → Nat → List (List Pt) → List (List Pt)
  | _, 0, cs => cs
  | y0, n + 1, cs => scanRows g fuel w (y0 + 1) n (scanRow g fuel w y0 cs)

/-- Generous fuel: an outer border of a `w × h` mask has at most `2*(w*h)+8` steps. -/
def traceFuel (w h : Nat) : Nat := 2 * (w * h) + 8

/-- The source's `find_contours` call on a `w × h` mask. -/
def findContoursM (w h : Nat) (m : Nat → Nat → Bool) : List (List Pt) :=
  scanRows (sampleM w h m) (traceFuel w h) w 0 h []

/-! ## Largest-contour selection and the reported summary. -/

/-- OpenCV `Rect` as returned by `bounding_rect`. -/
structure Rect where
  x : Int
  y : Int
  width : Int
  height : Int
deriving DecidableEq, Repr

/-- Running part of the shoelace sum: `first` closes the polygon. -/
def shoelaceGo (first : Pt) (cur : Pt) : List Pt → Int
  | [] => cur.1 * first.2 - first.1 * cur.2
  | q :: qs => (cur.1 * q.2 - q.1 * cur.2) + shoelaceGo first q qs

/-- Twice the signed polygon area of a contour (Green's formula over the
vertices, as `cv::contourArea` computes before halving). -/
def shoelace2 : List Pt → Int
  | [] => 0
  | p :: ps => shoelaceGo p p ps

/-- Twice `cv::contourArea(cnt, false)`: the absolute shoelace sum.  The
halving is strictly monotone, so comparisons of doubled areas agree with
the source's comparisons of `f64` areas (which are exact for these
integer-coordinate polygons). -/
def contourArea2 (c : List Pt) : Nat := (shoelace2 c).natAbs

/-- `cv::boundingRect` of a contour: minima and maxima of the coordinates,
with `width = xmax - xmin + 1` and `height = ymax - ymin + 1`. -/
def boundingRect : List Pt → Rect
  | [] => ⟨0, 0, 0, 0⟩
  | p :: ps =>
    let xmin := ps.foldl (fun a q => min a q.1) p.1
    let xmax := ps.foldl (fun a q => max a q.1) p.1
    let ymin := ps.foldl (fun a q => min a q.2) p.2
    let ymax := ps.foldl (fun a q => max a q.2) p.2
    ⟨xmin, ymin, xmax - xmin + 1, ymax - ymin + 1⟩

/-- One step of the source's largest-contour fold: `largest_area` starts at
`0.0` and `best_rect` at `None`; a contour replaces the best exactly when
its area is strictly larger. -/
def selectStep (best : Option (Rect × Nat)) (c : List Pt) : Option (Rect × Nat) :=
  match best with
  | none => if 0 < contourArea2 c then some (boundingRect c, contourArea2 c) else none
  | some (r, la) => if la < contourArea2 c then some (boundingRect c, contourArea2 c) else some (r, la)

/-- The source's selection loop over all found contours. -/
def selectBest (cs : List (List Pt)) : Option (Rect × Nat) := cs.foldl selectStep none

/-- RegionExtractor stage: contours of a mask, then largest-area selection. -/
def regionExtract (w h : Nat) (m : Nat → Nat → Bool) : Option (Rect × Nat) :=
  selectBest (findContoursM w h m)

/-- The centroid the source draws and would report:
`(r.x + r.width / 2, r.y + r.height / 2)` with `i32` division, which
truncates toward zero (`Int.tdiv`). -/
def centroid (r : Rect) : Int × Int := (r.x + r.width.tdiv 2, r.y + r.height.tdiv 2)

/-- The whole per-frame detection pipeline on an image:
segmentation, noise filtering, contour extraction, selection. -/
def processImg (w h : Nat) (img : Nat → Nat → Nat × Nat × Nat) : Option (Rect × Nat) :=
  regionExtract w h (noiseFilter w h (redMask img))

/-! ## FrameLoop: the state machine of `main`'s `loop`. -/

/-- Reading the interleaved BGR byte buffer as an image (`data[(y*w+x)*3 + c]`). -/
def bytesToImg (w : Nat) (data : List Nat) (x y : Nat) : Nat × Nat × Nat :=
  (data.getD ((y * w + x) * 3) 0,
   data.getD ((y * w + x) * 3 + 1) 0,
   data.getD ((y * w + x) * 3 + 2) 0)

/-- Why the loop stopped.  The source's `break` statements are exactly the
quit key and the 361-frame limit; no stop reason exists for acquisition
failure. -/
inductive StopReason where
  | quitKey
  | frameLimit
deriving DecidableEq, Repr

/-- Loop state: still pulling samples, or stopped, with the frame counter. -/
inductive LoopState where
  | running (n : Nat)
  | stopped (why : StopReason) (n : Nat)
deriving DecidableEq, Repr

/-- One observable iteration input: a pulled sample with its buffer bytes
and the `wait_key` result, or a `pull_sample` error. -/
inductive AcqEvent where
  | sample (data : List Nat) (key : Int)
  | pullErr

/-- What one iteration did. -/
inductive StepOut where
  | skippedShort
  | processed (det : Option (Rect × Nat))
  | retrySleep
  | idleStopped
deriving DecidableEq, Repr

/-- One iteration of the source's `loop`: on a pulled sample the counter is
incremented first; a buffer shorter than `w*h*3` is skipped with a warning
(`continue`), which also skips the quit-key and 361-frame checks; otherwise
the frame is processed, then the quit key (113 or 81) and then the
`frame_count == 361` limit are checked.  A `pull_sample` error is printed
and retried after a 50 ms sleep, leaving the state unchanged. -/
def loopStep (w h : Nat) (st : LoopState) (ev : AcqEvent) : LoopState × StepOut :=
  match st with
  | .stopped why n => (.stopped why n, .idleStopped)
  | .running n =>
    match ev with
    | .pullErr => (.running n, .retrySleep)
    | .sample data key =>
      if data.length < w * h * 3 then (.running (n + 1), .skippedShort)
      else if key = 113 ∨ key = 81 then
        (.stopped .quitKey (n + 1), .processed (processImg w h (bytesToImg w data)))
      else if n + 1 = 361 then
        (.stopped .frameLimit (n + 1), .processed (processImg w h (bytesToImg w data)))
      else (.running (n + 1), .processed (processImg w h (bytesToImg w data)))

end RsCam

namespace RsCam

/-! ## Concrete inputs taken from the specification's test properties. -/

/-- The synthetic 100×100 frame: a solid red square (RGB `(255,0,0)`, hence
BGR bytes `(0,0,255)`) on rows 10–20 and columns 10–20 of a black frame. -/
def redSquareFrame (x y : Nat) : Nat × Nat × Nat :=
  if 10 ≤ x ∧ x ≤ 20 ∧ 10 ≤ y ∧ y ≤ 20 then (0, 0, 255) else (0, 0, 0)

/-- An all-black frame of any size. -/
def blackFrame (_x _y : Nat) : Nat × Nat × Nat := (0, 0, 0)

/-- Indicator mask of the square `[10,20] × [10,20]`: the segmentation of
`redSquareFrame`, and also the clean solid rectangular blob of the
noise-filter idempotence property. -/
def sqMask (x y : Nat) : Bool := decide (10 ≤ x ∧ x ≤ 20 ∧ 10 ≤ y ∧ y ≤ 20)

/-- Erosion of `sqMask` by the 5×5 ellipse: the square `[12,18] × [12,18]`. -/
def eMask (x y : Nat) : Bool := decide (12 ≤ x ∧ x ≤ 18 ∧ 12 ≤ y ∧ y ≤ 18)

/-- Opening of `sqMask`: the square minus two pixels at each corner. -/
def oMask (x y : Nat) : Bool :=
  decide ((12 ≤ x ∧ x ≤ 18 ∧ 10 ≤ y ∧ y ≤ 20) ∨ (10 ≤ x ∧ x ≤ 20 ∧ 11 ≤ y ∧ y ≤ 19))

/-- Dilation of `oMask` by the 5×5 ellipse. -/
def dMask (x y : Nat) : Bool :=
  decide ((12 ≤ x ∧ x ≤ 18 ∧ 8 ≤ y ∧ y ≤ 22) ∨ (10 ≤ x ∧ x ≤ 20 ∧ 9 ≤ y ∧ y ≤ 21) ∨
          (8 ≤ x ∧ x ≤ 22 ∧ 10 ≤ y ∧ y ≤ 20))

/-! ## Pointwise congruence of the pipeline stages.

Morphology samples its input mask only at reflected coordinates, which lie
inside the image, and `sampleM` samples only in-bounds pixels, so each
stage only depends on the values of its input mask inside the image. -/

lemma list_all_congr {α : Type} {l : List α} {f g : α → Bool}
    (H : ∀ a ∈ l, f a = g a) : l.all f = l.all g := by
  induction l with
  | nil => rfl
  | cons a l ih =>
    simp only [List.all_cons]
    rw [H a (by simp), ih (fun b hb => H b (by simp [hb]))]

lemma list_any_congr {α : Type} {l : List α} {f g : α → Bool}
    (H : ∀ a ∈ l, f a = g a) : l.any f = l.any g := by
  induction l with
  | nil => rfl
  | cons a l ih =>
    simp only [List.any_cons]
    rw [H a (by simp), ih (fun b hb => H b (by simp [hb]))]

lemma kOffsets_bound : ∀ d ∈ kOffsets, -2 ≤ d.1 ∧ d.1 ≤ 2 ∧ -2 ≤ d.2 ∧ d.2 ≤ 2 := by decide

/-- Reflected indices coming from the 5×5 kernel stay inside the image. -/
lemma reflect101_lt (len : Nat) (p : Int) (hlen : 1 ≤ len) (h1 : -2 ≤ p)
    (h2 : p ≤ (len : Int) + 1) : reflect101 len p < len := by
  unfold reflect101 reflectOnce
  split_ifs <;> omega

lemma erodeM_congr {w h : Nat} {m m2 : Nat → Nat → Bool}
    (H : ∀ a b, a < w → b < h → m a b = m2 a b) {x y : Nat} (hx : x < w) (hy : y < h) :
    erodeM w h m x y = erodeM w h m2 x y := by
  unfold erodeM
  apply list_all_congr
  intro d hd
  have hb := kOffsets_bound d hd
  exact H _ _
    (reflect101_lt w _ (by omega) (by omega) (by omega))
    (reflect101_lt h _ (by omega) (by omega) (by omega))

lemma dilateM_congr {w h : Nat} {m m2 : Nat → Nat → Bool}
    (H : ∀ a b, a < w → b < h → m a b = m2 a b) {x y : Nat} (hx : x < w) (hy : y < h) :
    dilateM w h m x y = dilateM w h m2 x y := by
  unfold dilateM
  apply list_any_congr
  intro d hd
  have hb := kOffsets_bound d hd
  exact H _ _
    (reflect101_lt w _ (by omega) (by omega) (by omega))
    (reflect101_lt h _ (by omega) (by omega) (by omega))

lemma sampleM_ext {w h : Nat} {m m2 : Nat → Nat → Bool}
    (H : ∀ a b, a < w → b < h → m a b = m2 a b) :
    sampleM w h m = sampleM w h m2 := by
  funext p
  unfold sampleM
  by_cases hb : 0 ≤ p.1 ∧ p.1 < (w : Int) ∧ 0 ≤ p.2 ∧ p.2 < (h : Int)
  · rw [decide_eq_true hb]
    simp only [Bool.true_and]
    exact H _ _ (by omega) (by omega)
  · rw [decide_eq_false hb]
    simp only [Bool.false_and]

lemma findContoursM_congr {w h : Nat} {m m2 : Nat → Nat → Bool}
    (H : ∀ a b, a < w → b < h → m a b = m2 a b) :
    findContoursM w h m = findContoursM w h m2 := by
  unfold findContoursM
  rw [sampleM_ext H]

/-! ## The morphology stages on the red square, as closed forms. -/

lemma redMask_redSquare : ∀ x y : Nat, redMask redSquareFrame x y = sqMask x y := by
  intro x y
  unfold redMask redSquareFrame sqMask
  by_cases hc : 10 ≤ x ∧ x ≤ 20 ∧ 10 ≤ y ∧ y ≤ 20
  · rw [if_pos hc, decide_eq_true hc]
    decide
  · rw [if_neg hc, decide_eq_false hc]
    decide

/-! Stage lemmas: each morphology stage of the red-square pipeline equals
its closed form.  On the window `[8,22]²` (which contains every foreground
pixel of every stage) this is checked by evaluation; outside the window
both sides are background, by the locality lemmas below. -/

/-- Bool-level agreement check of two masks on the window `[8,22]²`. -/
def winCheck (f f2 : Nat → Nat → Bool) : Bool :=
  (List.range 15).all fun i => (List.range 15).all fun j => f (8 + i) (8 + j) == f2 (8 + i) (8 + j)

lemma ofWinCheck {f f2 : Nat → Nat → Bool} (hc : winCheck f f2 = true) :
    ∀ x y, 8 ≤ x → x ≤ 22 → 8 ≤ y → y ≤ 22 → f x y = f2 x y := by
  intro x y hx1 hx2 hy1 hy2
  unfold winCheck at hc
  have h1 := (List.all_eq_true.mp hc) (x - 8) (List.mem_range.mpr (by omega))
  have h2 := (List.all_eq_true.mp h1) (y - 8) (List.mem_range.mpr (by omega))
  rw [show 8 + (x - 8) = x from by omega, show 8 + (y - 8) = y from by omega] at h2
  exact eq_of_beq h2

/-- A reflected coordinate landing in a box inside `[3,96]` forces the raw
coordinate into the same box (reflection only produces 1, 2, 97, 98). -/
lemma reflect_in_box {lo hi : Nat} (z : Int) (h3 : 3 ≤ lo) (h96 : hi ≤ 96)
    (hz1 : -2 ≤ z) (hz2 : z ≤ 101)
    (hlo : lo ≤ reflect101 100 z) (hhi : reflect101 100 z ≤ hi) :
    (lo : Int) ≤ z ∧ z ≤ (hi : Int) := by
  unfold reflect101 reflectOnce at hlo hhi
  split_ifs at hlo hhi <;> omega

lemma reflect_id (len : Nat) (x : Nat) (hx : x < len) : reflect101 len (x : Int) = x := by
  unfold reflect101 reflectOnce
  split_ifs <;> omega

/-- Dilation of a mask contained in a box inside `[3,96]²` is contained in
the box padded by two pixels. -/
lemma dilate_subset_box {m : Nat → Nat → Bool} {x0 x1 y0 y1 : Nat}
    (h3x : 3 ≤ x0) (h96x : x1 ≤ 96) (h3y : 3 ≤ y0) (h96y : y1 ≤ 96)
    (hm : ∀ a b, m a b = true → x0 ≤ a ∧ a ≤ x1 ∧ y0 ≤ b ∧ b ≤ y1) :
    ∀ x y, x < 100 → y < 100 → dilateM 100 100 m x y = true →
      x0 - 2 ≤ x ∧ x ≤ x1 + 2 ∧ y0 - 2 ≤ y ∧ y ≤ y1 + 2 := by
  intro x y hx hy hd
  unfold dilateM at hd
  rw [List.any_eq_true] at hd
  obtain ⟨d, hd1, hd2⟩ := hd
  have hb := kOffsets_bound d hd1
  have hbox := hm _ _ hd2
  have hqx := reflect_in_box ((x : Int) + d.1) h3x h96x (by omega) (by omega) hbox.1 hbox.2.1
  have hqy := reflect_in_box ((y : Int) + d.2) h3y h96y (by omega) (by omega) hbox.2.2.1 hbox.2.2.2
  omega

/-- Erosion of a mask contained in a box inside `[3,96]²` is contained in
the same box (the kernel contains the centre offset). -/
lemma erode_subset_box {m : Nat → Nat → Bool} {x0 x1 y0 y1 : Nat}
    (hm : ∀ a b, m a b = true → x0 ≤ a ∧ a ≤ x1 ∧ y0 ≤ b ∧ b ≤ y1) :
    ∀ x y, x < 100 → y < 100 → erodeM 100 100 m x y = true →
      x0 ≤ x ∧ x ≤ x1 ∧ y0 ≤ y ∧ y ≤ y1 := by
  intro x y hx hy he
  unfold erodeM at he
  rw [List.all_eq_true] at he
  have hc := he ((0 : Int), (0 : Int)) (by simp [kOffsets])
  rw [show (x : Int) + (0 : Int) = (x : Int) from by omega,
      show (y : Int) + (0 : Int) = (y : Int) from by omega,
      reflect_id 100 x hx, reflect_id 100 y hy] at hc
  exact hm _ _ hc

lemma sqMask_box : ∀ a b, sqMask a b = true → 10 ≤ a ∧ a ≤ 20 ∧ 10 ≤ b ∧ b ≤ 20 := by
  intro a b hab
  simpa [sqMask] using hab

lemma eMask_box : ∀ a b, eMask a b = true → 12 ≤ a ∧ a ≤ 18 ∧ 12 ≤ b ∧ b ≤ 18 := by
  intro a b hab
  simpa [eMask] using hab

lemma oMask_box : ∀ a b, oMask a b = true → 10 ≤ a ∧ a ≤ 20 ∧ 10 ≤ b ∧ b ≤ 20 := by
  intro a b hab
  simp only [oMask, decide_eq_true_eq] at hab
  omega

lemma dMask_box : ∀ a b, dMask a b = true → 8 ≤ a ∧ a ≤ 22 ∧ 8 ≤ b ∧ b ≤ 22 := by
  intro a b hab
  simp only [dMask, decide_eq_true_eq] at hab
  omega

lemma win_erode_sq : winCheck (erodeM 100 100 sqMask) eMask = true := by rfl

lemma win_dilate_e : winCheck (dilateM 100 100 eMask) oMask = true := by rfl

lemma win_dilate_o : winCheck (dilateM 100 100 oMask) dMask = true := by rfl

lemma win_erode_d : winCheck (erodeM 100 100 dMask) oMask = true := by rfl

lemma win_erode_o : winCheck (erodeM 100 100 oMask) eMask = true := by rfl

lemma stage_erode_sq : ∀ x y, x < 100 → y < 100 → erodeM 100 100 sqMask x y = eMask x y := by
  intro x y hx hy
  by_cases hw : 8 ≤ x ∧ x ≤ 22 ∧ 8 ≤ y ∧ y ≤ 22
  · exact ofWinCheck win_erode_sq x y hw.1 hw.2.1 hw.2.2.1 hw.2.2.2
  · have hL : erodeM 100 100 sqMask x y = false := by
      cases hE : erodeM 100 100 sqMask x y
      · rfl
      · exact absurd (erode_subset_box sqMask_box x y hx hy hE) (by omega)
    have hR : eMask x y = false := by
      simp only [eMask, decide_eq_false_iff_not]
      omega
    rw [hL, hR]

lemma stage_dilate_e : ∀ x y, x < 100 → y < 100 → dilateM 100 100 eMask x y = oMask x y := by
  intro x y hx hy
  by_cases hw : 8 ≤ x ∧ x ≤ 22 ∧ 8 ≤ y ∧ y ≤ 22
  · exact ofWinCheck win_dilate_e x y hw.1 hw.2.1 hw.2.2.1 hw.2.2.2
  · have hL : dilateM 100 100 eMask x y = false := by
      cases hE : dilateM 100 100 eMask x y
      · rfl
      · exact absurd (dilate_subset_box (by omega) (by omega) (by omega) (by omega)
          eMask_box x y hx hy hE) (by omega)
    have hR : oMask x y = false := by
      simp only [oMask, decide_eq_false_iff_not]
      omega
    rw [hL, hR]

lemma stage_dilate_o : ∀ x y, x < 100 → y < 100 → dilateM 100 100 oMask x y = dMask x y := by
  intro x y hx hy
  by_cases hw : 8 ≤ x ∧ x ≤ 22 ∧ 8 ≤ y ∧ y ≤ 22
  · exact ofWinCheck win_dilate_o x y hw.1 hw.2.1 hw.2.2.1 hw.2.2.2
  · have hL : dilateM 100 100 oMask x y = false := by
      cases hE : dilateM 100 100 oMask x y
      · rfl
      · exact absurd (dilate_subset_box (by omega) (by omega) (by omega) (by omega)
          oMask_box x y hx hy hE) (by omega)
    have hR : dMask x y = false := by
      simp only [dMask, decide_eq_false_iff_not]
      omega
    rw [hL, hR]

lemma stage_erode_d : ∀ x y, x < 100 → y < 100 → erodeM 100 100 dMask x y = oMask x y := by
  intro x y hx hy
  by_cases hw : 8 ≤ x ∧ x ≤ 22 ∧ 8 ≤ y ∧ y ≤ 22
  · exact ofWinCheck win_erode_d x y hw.1 hw.2.1 hw.2.2.1 hw.2.2.2
  · have hL : erodeM 100 100 dMask x y = false := by
      cases hE : erodeM 100 100 dMask x y
      · rfl
      · exact absurd (erode_subset_box dMask_box x y hx hy hE) (by omega)
    have hR : oMask x y = false := by
      simp only [oMask, decide_eq_false_iff_not]
      omega
    rw [hL, hR]

lemma stage_erode_o : ∀ x y, x < 100 → y < 100 → erodeM 100 100 oMask x y = eMask x y := by
  intro x y hx hy
  by_cases hw : 8 ≤ x ∧ x ≤ 22 ∧ 8 ≤ y ∧ y ≤ 22
  · exact ofWinCheck win_erode_o x y hw.1 hw.2.1 hw.2.2.1 hw.2.2.2
  · have hL : erodeM 100 100 oMask x y = false := by
      cases hE : erodeM 100 100 oMask x y
      · rfl
      · exact absurd (erode_subset_box oMask_box x y hx hy hE) (by omega)
    have hR : eMask x y = false := by
      simp only [eMask, decide_eq_false_iff_not]
      omega
    rw [hL, hR]

/-- The noise filter of any mask agreeing with `sqMask` on the image equals
the clipped-corner square `oMask` on the image. -/
lemma nf_of_sq {m : Nat → Nat → Bool} (hm : ∀ a b, a < 100 → b < 100 → m a b = sqMask a b) :
    ∀ x y, x < 100 → y < 100 → noiseFilter 100 100 m x y = oMask x y := by
  have h1 : ∀ a b, a < 100 → b < 100 → erodeM 100 100 m a b = eMask a b := fun a b ha hb =>
    (erodeM_congr hm ha hb).trans (stage_erode_sq a b ha hb)
  have h2 : ∀ a b, a < 100 → b < 100 →
      dilateM 100 100 (erodeM 100 100 m) a b = oMask a b := fun a b ha hb =>
    (dilateM_congr h1 ha hb).trans (stage_dilate_e a b ha hb)
  have h3 : ∀ a b, a < 100 → b < 100 →
      dilateM 100 100 (dilateM 100 100 (erodeM 100 100 m)) a b = dMask a b := fun a b ha hb =>
    (dilateM_congr h2 ha hb).trans (stage_dilate_o a b ha hb)
  intro x y hx hy
  show erodeM 100 100 (dilateM 100 100 (dilateM 100 100 (erodeM 100 100 m))) x y = oMask x y
  exact (erodeM_congr h3 hx hy).trans (stage_erode_d x y hx hy)

/-- The noise filter of any mask agreeing with `oMask` on the image again
equals `oMask` on the image: the open–close pair is idempotent here. -/
lemma nf_of_o {m : Nat → Nat → Bool} (hm : ∀ a b, a < 100 → b < 100 → m a b = oMask a b) :
    ∀ x y, x < 100 → y < 100 → noiseFilter 100 100 m x y = oMask x y := by
  have h1 : ∀ a b, a < 100 → b < 100 → erodeM 100 100 m a b = eMask a b := fun a b ha hb =>
    (erodeM_congr hm ha hb).trans (stage_erode_o a b ha hb)
  have h2 : ∀ a b, a < 100 → b < 100 →
      dilateM 100 100 (erodeM 100 100 m) a b = oMask a b := fun a b ha hb =>
    (dilateM_congr h1 ha hb).trans (stage_dilate_e a b ha hb)
  have h3 : ∀ a b, a < 100 → b < 100 →
      dilateM 100 100 (dilateM 100 100 (erodeM 100 100 m)) a b = dMask a b := fun a b ha hb =>
    (dilateM_congr h2 ha hb).trans (stage_dilate_o a b ha hb)
  intro x y hx hy
  show erodeM 100 100 (dilateM 100 100 (dilateM 100 100 (erodeM 100 100 m))) x y = oMask x y
  exact (erodeM_congr h3 hx hy).trans (stage_erode_d x y hx hy)

end RsCam

namespace RsCam

/-! ## Evaluating the raster scan in row blocks.

Evaluating ten thousand scan steps in one definitional-equality check
overflows the evaluator, so the scan is split into blocks of rows with
explicit intermediate contour lists. -/

lemma scanRows_add (g : Pt → Bool) (fuel w : Nat) :
    ∀ (n : Nat) (y0 m2 : Nat) (cs : List (List Pt)),
    scanRows g fuel w y0 (n + m2) cs = scanRows g fuel w (y0 + n) m2 (scanRows g fuel w y0 n cs) := by
  intro n
  induction n with
  | zero =>
    intro y0 m2 cs
    simp [scanRows]
  | succ n ih =>
    intro y0 m2 cs
    rw [show n + 1 + m2 = (n + m2) + 1 from by omega]
    show scanRows g fuel w (y0 + 1) (n + m2) (scanRow g fuel w y0 cs) = _
    rw [ih (y0 + 1) m2 (scanRow g fuel w y0 cs)]
    rw [show y0 + 1 + n = y0 + (n + 1) from by omega]
    rfl

/-- The outer contour of `oMask` as `findContours` traces it: start at the
topmost-leftmost pixel `(12,10)`, go around the clipped square. -/
def c1Contour : List Pt :=
  [(12, 10), (11, 11), (10, 11), (10, 12), (10, 13), (10, 14), (10, 15), (10, 16),
   (10, 17), (10, 18), (10, 19), (11, 19), (12, 20), (13, 20), (14, 20), (15, 20),
   (16, 20), (17, 20), (18, 20), (19, 19), (20, 19), (20, 18), (20, 17), (20, 16),
   (20, 15), (20, 14), (20, 13), (20, 12), (20, 11), (19, 11), (18, 10), (17, 10),
   (16, 10), (15, 10), (14, 10), (13, 10)]

lemma c1rows0 : scanRows (sampleM 100 100 oMask) (traceFuel 100 100) 100 0 10 [] = [] := by rfl

lemma c1rows10 :
    scanRows (sampleM 100 100 oMask) (traceFuel 100 100) 100 10 10 [] = [c1Contour] := by rfl

lemma c1rows20 : scanRows (sampleM 100 100 oMask) (traceFuel 100 100) 100 20 10 [c1Contour] =
    [c1Contour] := by rfl

lemma c1rows30 : scanRows (sampleM 100 100 oMask) (traceFuel 100 100) 100 30 10 [c1Contour] =
    [c1Contour] := by rfl

lemma c1rows40 : scanRows (sampleM 100 100 oMask) (traceFuel 100 100) 100 40 10 [c1Contour] =
    [c1Contour] := by rfl

lemma c1rows50 : scanRows (sampleM 100 100 oMask) (traceFuel 100 100) 100 50 10 [c1Contour] =
    [c1Contour] := by rfl

lemma c1rows60 : scanRows (sampleM 100 100 oMask) (traceFuel 100 100) 100 60 10 [c1Contour] =
    [c1Contour] := by rfl

lemma c1rows70 : scanRows (sampleM 100 100 oMask) (traceFuel 100 100) 100 70 10 [c1Contour] =
    [c1Contour] := by rfl

lemma c1rows80 : scanRows (sampleM 100 100 oMask) (traceFuel 100 100) 100 80 10 [c1Contour] =
    [c1Contour] := by rfl

lemma c1rows90 : scanRows (sampleM 100 100 oMask) (traceFuel 100 100) 100 90 10 [c1Contour] =
    [c1Contour] := by rfl

/-- `findContours` on the filtered red-square mask finds exactly the outer
contour of the clipped square. -/
lemma oMask_contours : findContoursM 100 100 oMask = [c1Contour] := by
  show scanRows (sampleM 100 100 oMask) (traceFuel 100 100) 100 0 100 [] = [c1Contour]
  have h1 : scanRows (sampleM 100 100 oMask) (traceFuel 100 100) 100 0 100 [] =
      scanRows (sampleM 100 100 oMask) (traceFuel 100 100) 100 10 90 [] := by
    have hstep := scanRows_add (sampleM 100 100 oMask) (traceFuel 100 100) 100 10 0 90 []
    rw [c1rows0] at hstep
    exact hstep
  have h2 : scanRows (sampleM 100 100 oMask) (traceFuel 100 100) 100 10 90 [] =
      scanRows (sampleM 100 100 oMask) (traceFuel 100 100) 100 20 80 [c1Contour] := by
    have hstep := scanRows_add (sampleM 100 100 oMask) (traceFuel 100 100) 100 10 10 80 []
    rw [c1rows10] at hstep
    exact hstep
  have h3 : scanRows (sampleM 100 100 oMask) (traceFuel 100 100) 100 20 80 [c1Contour] =
      scanRows (sampleM 100 100 oMask) (traceFuel 100 100) 100 30 70 [c1Contour] := by
    have hstep := scanRows_add (sampleM 100 100 oMask) (traceFuel 100 100) 100 10 20 70 [c1Contour]
    rw [c1rows20] at hstep
    exact hstep
  have h4 : scanRows (sampleM 100 100 oMask) (traceFuel 100 100) 100 30 70 [c1Contour] =
      scanRows (sampleM 100 100 oMask) (traceFuel 100 100) 100 40 60 [c1Contour] := by
    have hstep := scanRows_add (sampleM 100 100 oMask) (traceFuel 100 100) 100 10 30 60 [c1Contour]
    rw [c1rows30] at hstep
    exact hstep
  have h5 : scanRows (sampleM 100 100 oMask) (traceFuel 100 100) 100 40 60 [c1Contour] =
      scanRows (sampleM 100 100 oMask) (traceFuel 100 100) 100 50 50 [c1Contour] := by
    have hstep := scanRows_add (sampleM 100 100 oMask) (traceFuel 100 100) 100 10 40 50 [c1Contour]
    rw [c1rows40] at hstep
    exact hstep
  have h6 : scanRows (sampleM 100 100 oMask) (traceFuel 100 100) 100 50 50 [c1Contour] =
      scanRows (sampleM 100 100 oMask) (traceFuel 100 100) 100 60 40 [c1Contour] := by
    have hstep := scanRows_add (sampleM 100 100 oMask) (traceFuel 100 100) 100 10 50 40 [c1Contour]
    rw [c1rows50] at hstep
    exact hstep
  have h7 : scanRows (sampleM 100 100 oMask) (traceFuel 100 100) 100 60 40 [c1Contour] =
      scanRows (sampleM 100 100 oMask) (traceFuel 100 100) 100 70 30 [c1Contour] := by
    have hstep := scanRows_add (sampleM 100 100 oMask) (traceFuel 100 100) 100 10 60 30 [c1Contour]
    rw [c1rows60] at hstep
    exact hstep
  have h8 : scanRows (sampleM 100 100 oMask) (traceFuel 100 100) 100 70 30 [c1Contour] =
      scanRows (sampleM 100 100 oMask) (traceFuel 100 100) 100 80 20 [c1Contour] := by
    have hstep := scanRows_add (sampleM 100 100 oMask) (traceFuel 100 100) 100 10 70 20 [c1Contour]
    rw [c1rows70] at hstep
    exact hstep
  have h9 : scanRows (sampleM 100 100 oMask) (traceFuel 100 100) 100 80 20 [c1Contour] =
      scanRows (sampleM 100 100 oMask) (traceFuel 100 100) 100 90 10 [c1Contour] := by
    have hstep := scanRows_add (sampleM 100 100 oMask) (traceFuel 100 100) 100 10 80 10 [c1Contour]
    rw [c1rows80] at hstep
    exact hstep
  exact h1.trans (h2.trans (h3.trans (h4.trans (h5.trans (h6.trans (h7.trans
    (h8.trans (h9.trans c1rows90))))))))

/-- The whole per-frame pipeline on the synthetic red-square frame:
bounding rect `x=10, y=10, width=11, height=11` and doubled contour area
188, i.e. a reported `contourArea` of `94.0`. -/
lemma red_square_detect :
    processImg 100 100 redSquareFrame = some (⟨10, 10, 11, 11⟩, 188) := by
  unfold processImg regionExtract
  rw [findContoursM_congr (nf_of_sq (fun a b _ _ => redMask_redSquare a b))]
  rw [oMask_contours]
  rfl

end RsCam

namespace RsCam

/-! ## Provenance of a selected detection.

Every point a trace emits is a foreground in-bounds pixel, every contour
the scan returns is a nonempty trace, and the selected rectangle is the
bounding rectangle of one of the returned contours.  Together these give
the bounding-box and centroid invariants. -/

lemma sampleM_true_bounds {w h : Nat} {m : Nat → Nat → Bool} {p : Pt}
    (hp : sampleM w h m p = true) :
    0 ≤ p.1 ∧ p.1 < (w : Int) ∧ 0 ≤ p.2 ∧ p.2 < (h : Int) := by
  unfold sampleM at hp
  simp only [Bool.and_eq_true, decide_eq_true_eq] at hp
  exact hp.1

lemma searchCCW_g {g : Pt → Bool} {p : Pt} :
    ∀ (k s t : Nat) (q : Pt), searchCCW g p s k = some (t, q) → g q = true := by
  intro k
  induction k with
  | zero =>
    intro s t q hsq
    simp [searchCCW] at hsq
  | succ k ih =>
    intro s t q hsq
    unfold searchCCW at hsq
    by_cases hg : g (addPt p (delta ((s + 1) % 8))) = true
    · simp only [hg, if_true] at hsq
      cases hsq
      exact hg
    · simp only [Bool.not_eq_true] at hg
      simp only [hg, Bool.false_eq_true, if_false] at hsq
      exact ih _ _ _ hsq

lemma traceLoop_g {g : Pt → Bool} {i0 i1 : Pt} :
    ∀ (fuel : Nat) (i3 : Pt) (s : Nat) (acc : List Pt),
    g i3 = true → (∀ q ∈ acc, g q = true) →
    ∀ q ∈ traceLoop g i0 i1 fuel i3 s acc, g q = true := by
  intro fuel
  induction fuel with
  | zero =>
    intro i3 s acc h3 hacc q hq
    simp only [traceLoop, List.mem_reverse, List.mem_cons] at hq
    rcases hq with rfl | hq
    · exact h3
    · exact hacc q hq
  | succ fuel ih =>
    intro i3 s acc h3 hacc q hq
    unfold traceLoop at hq
    split at hq
    · simp only [List.mem_reverse, List.mem_cons] at hq
      rcases hq with rfl | hq
      · exact h3
      · exact hacc q hq
    · next t i4 hsc =>
      split at hq
      · simp only [List.mem_reverse, List.mem_cons] at hq
        rcases hq with rfl | hq
        · exact h3
        · exact hacc q hq
      · refine ih i4 _ (i3 :: acc) (searchCCW_g _ _ _ _ hsc) ?_ q hq
        intro q2 hq2
        rcases List.mem_cons.mp hq2 with rfl | hmem
        · exact h3
        · exact hacc _ hmem

lemma traceLoop_ne {g : Pt → Bool} {i0 i1 : Pt} :
    ∀ (fuel : Nat) (i3 : Pt) (s : Nat) (acc : List Pt),
    traceLoop g i0 i1 fuel i3 s acc ≠ [] := by
  intro fuel
  induction fuel with
  | zero =>
    intro i3 s acc
    simp [traceLoop]
  | succ fuel ih =>
    intro i3 s acc
    unfold traceLoop
    split
    · simp
    · next t i4 _ =>
      split
      · simp
      · exact ih i4 _ (i3 :: acc)

lemma traceFrom_g {g : Pt → Bool} {p : Pt} {fuel : Nat} (hp : g p = true) :
    ∀ q ∈ traceFrom g p fuel, g q = true := by
  unfold traceFrom
  cases [3, 2, 1, 0, 7, 6, 5].find? (fun s => g (addPt p (delta s))) with
  | none =>
    intro q hq
    rw [List.mem_singleton.mp hq]
    exact hp
  | some s =>
    intro q hq
    exact traceLoop_g fuel p s [] hp (by simp) q hq

lemma traceFrom_ne {g : Pt → Bool} {p : Pt} {fuel : Nat} : traceFrom g p fuel ≠ [] := by
  unfold traceFrom
  cases [3, 2, 1, 0, 7, 6, 5].find? (fun s => g (addPt p (delta s))) with
  | none => simp
  | some s => exact traceLoop_ne fuel p s []

/-- Any property holding for every trace from a foreground pixel is
preserved through one scan step. -/
lemma scanStep_P {P : List Pt → Prop} {g : Pt → Bool} {fuel : Nat}
    (hP : ∀ p, g p = true → P (traceFrom g p fuel))
    {cs : List (List Pt)} (hcs : ∀ c ∈ cs, P c) (p : Pt) :
    ∀ c ∈ scanStep g fuel cs p, P c := by
  unfold scanStep
  split
  case isTrue hcond =>
    intro c hc
    rcases List.mem_cons.mp hc with rfl | hmem
    · exact hP p hcond.1
    · exact hcs c hmem
  case isFalse _ => exact hcs

lemma scanRow_P {P : List Pt → Prop} {g : Pt → Bool} {fuel : Nat}
    (hP : ∀ p, g p = true → P (traceFrom g p fuel)) :
    ∀ (l : List Nat) (y : Nat) (cs : List (List Pt)), (∀ c ∈ cs, P c) →
    ∀ c ∈ l.foldl (fun cs2 x => scanStep g fuel cs2 (Int.ofNat x, Int.ofNat y)) cs, P c := by
  intro l
  induction l with
  | nil => intro y cs hcs; exact hcs
  | cons x l ih =>
    intro y cs hcs
    exact ih y _ (scanStep_P hP hcs _)

lemma scanRows_P {P : List Pt → Prop} {g : Pt → Bool} {fuel w : Nat}
    (hP : ∀ p, g p = true → P (traceFrom g p fuel)) :
    ∀ (n y0 : Nat) (cs : List (List Pt)), (∀ c ∈ cs, P c) →
    ∀ c ∈ scanRows g fuel w y0 n cs, P c := by
  intro n
  induction n with
  | zero => intro y0 cs hcs; exact hcs
  | succ n ih =>
    intro y0 cs hcs
    exact ih (y0 + 1) _ (scanRow_P hP (List.range w) y0 cs hcs)

/-- Every contour found on a mask is nonempty and consists of in-bounds
foreground pixels. -/
lemma findContoursM_P {w h : Nat} {m : Nat → Nat → Bool} :
    ∀ c ∈ findContoursM w h m, c ≠ [] ∧ ∀ q ∈ c, sampleM w h m q = true := by
  unfold findContoursM
  exact scanRows_P
    (fun p hp => ⟨traceFrom_ne, traceFrom_g hp⟩) h 0 [] (by simp)

lemma selectStep_none_pos {c : List Pt} (hpos : 0 < contourArea2 c) :
    selectStep none c = some (boundingRect c, contourArea2 c) := by
  simp [selectStep, hpos]

lemma selectStep_none_neg {c : List Pt} (hpos : ¬ 0 < contourArea2 c) :
    selectStep none c = none := by
  simp [selectStep, hpos]

lemma selectStep_some_pos {c : List Pt} {r0 : Rect} {a0 : Nat} (hlt : a0 < contourArea2 c) :
    selectStep (some (r0, a0)) c = some (boundingRect c, contourArea2 c) := by
  simp [selectStep, hlt]

lemma selectStep_some_neg {c : List Pt} {r0 : Rect} {a0 : Nat} (hlt : ¬ a0 < contourArea2 c) :
    selectStep (some (r0, a0)) c = some (r0, a0) := by
  simp [selectStep, hlt]

/-- The selection fold only produces bounding rectangles of scanned
contours. -/
lemma selectFold_some :
    ∀ (cs : List (List Pt)) (acc : Option (Rect × Nat)) (r : Rect) (a : Nat),
    cs.foldl selectStep acc = some (r, a) →
    acc = some (r, a) ∨ ∃ c ∈ cs, r = boundingRect c ∧ a = contourArea2 c := by
  intro cs
  induction cs with
  | nil =>
    intro acc r a hfold
    exact Or.inl hfold
  | cons c cs ih =>
    intro acc r a hfold
    rcases ih _ _ _ hfold with hacc | ⟨c2, hc2, hrc⟩
    · cases acc with
      | none =>
        by_cases hpos : 0 < contourArea2 c
        · rw [selectStep_none_pos hpos] at hacc
          cases hacc
          exact Or.inr ⟨c, by simp, rfl, rfl⟩
        · rw [selectStep_none_neg hpos] at hacc
          cases hacc
      | some ra =>
        obtain ⟨r0, a0⟩ := ra
        by_cases hlt : a0 < contourArea2 c
        · rw [selectStep_some_pos hlt] at hacc
          cases hacc
          exact Or.inr ⟨c, by simp, rfl, rfl⟩
        · rw [selectStep_some_neg hlt] at hacc
          cases hacc
          exact Or.inl rfl
    · exact Or.inr ⟨c2, by simp [hc2], hrc⟩

lemma foldl_min_le (f : Pt → Int) :
    ∀ (l : List Pt) (a : Int), l.foldl (fun b q => min b (f q)) a ≤ a := by
  intro l
  induction l with
  | nil => intro a; exact le_refl a
  | cons p l ih =>
    intro a
    exact le_trans (ih (min a (f p))) (min_le_left a (f p))

lemma foldl_min_lb (f : Pt → Int) :
    ∀ (l : List Pt) (a b : Int), b ≤ a → (∀ q ∈ l, b ≤ f q) →
    b ≤ l.foldl (fun b2 q => min b2 (f q)) a := by
  intro l
  induction l with
  | nil => intro a b hba _; exact hba
  | cons p l ih =>
    intro a b hba hl
    exact ih _ _ (le_min hba (hl p (by simp))) (fun q hq => hl q (by simp [hq]))

lemma foldl_max_ge (f : Pt → Int) :
    ∀ (l : List Pt) (a : Int), a ≤ l.foldl (fun b q => max b (f q)) a := by
  intro l
  induction l with
  | nil => intro a; exact le_refl a
  | cons p l ih =>
    intro a
    exact le_trans (le_max_left a (f p)) (ih (max a (f p)))

lemma foldl_max_ub (f : Pt → Int) :
    ∀ (l : List Pt) (a b : Int), a ≤ b → (∀ q ∈ l, f q ≤ b) →
    l.foldl (fun b2 q => max b2 (f q)) a ≤ b := by
  intro l
  induction l with
  | nil => intro a b hab _; exact hab
  | cons p l ih =>
    intro a b hab hl
    exact ih _ _ (max_le hab (hl p (by simp))) (fun q hq => hl q (by simp [hq]))

/-- Bounding rectangle of a nonempty list of in-bounds points: corners in
range and positive extent. -/
lemma boundingRect_spec {w h : Int} :
    ∀ (c : List Pt), c ≠ [] → (∀ q ∈ c, 0 ≤ q.1 ∧ q.1 < w ∧ 0 ≤ q.2 ∧ q.2 < h) →
    0 ≤ (boundingRect c).x ∧ 1 ≤ (boundingRect c).width ∧
      (boundingRect c).x + (boundingRect c).width ≤ w ∧
    0 ≤ (boundingRect c).y ∧ 1 ≤ (boundingRect c).height ∧
      (boundingRect c).y + (boundingRect c).height ≤ h := by
  intro c hne hq
  match c with
  | [] => exact absurd rfl hne
  | p :: ps =>
    have hxmin1 : ps.foldl (fun a q => min a q.1) p.1 ≤ p.1 := foldl_min_le _ ps p.1
    have hxmin0 : 0 ≤ ps.foldl (fun a q => min a q.1) p.1 :=
      foldl_min_lb _ ps p.1 0 (hq p (by simp)).1 (fun q hmem => (hq q (by simp [hmem])).1)
    have hxmax1 : p.1 ≤ ps.foldl (fun a q => max a q.1) p.1 := foldl_max_ge _ ps p.1
    have hxmaxw : ps.foldl (fun a q => max a q.1) p.1 ≤ w - 1 :=
      foldl_max_ub _ ps p.1 (w - 1) (by have := (hq p (by simp)).2.1; omega)
        (fun q hmem => by have := (hq q (by simp [hmem])).2.1; omega)
    have hymin1 : ps.foldl (fun a q => min a q.2) p.2 ≤ p.2 := foldl_min_le _ ps p.2
    have hymin0 : 0 ≤ ps.foldl (fun a q => min a q.2) p.2 :=
      foldl_min_lb _ ps p.2 0 (hq p (by simp)).2.2.1 (fun q hmem => (hq q (by simp [hmem])).2.2.1)
    have hymax1 : p.2 ≤ ps.foldl (fun a q => max a q.2) p.2 := foldl_max_ge _ ps p.2
    have hymaxh : ps.foldl (fun a q => max a q.2) p.2 ≤ h - 1 :=
      foldl_max_ub _ ps p.2 (h - 1) (by have := (hq p (by simp)).2.2.2; omega)
        (fun q hmem => by have := (hq q (by simp [hmem])).2.2.2; omega)
    simp only [boundingRect]
    refine ⟨hxmin0, by omega, by omega, hymin0, by omega, by omega⟩

/-- Rust `i32` division truncates toward zero; on the nonnegative values
reachable here it agrees with Lean's Euclidean `/`. -/
lemma tdiv_two_nonneg (a : Int) (ha : 0 ≤ a) : a.tdiv 2 = a / 2 := by
  obtain ⟨n, rfl⟩ := Int.eq_ofNat_of_zero_le ha
  rfl

/-- A selected detection comes from the bounding rectangle of one nonempty
in-bounds contour of the mask. -/
lemma regionExtract_provenance {w h : Nat} {m : Nat → Nat → Bool} {r : Rect} {a : Nat}
    (hre : regionExtract w h m = some (r, a)) :
    ∃ c, c ≠ [] ∧ (∀ q ∈ c, sampleM w h m q = true) ∧ r = boundingRect c := by
  unfold regionExtract selectBest at hre
  rcases selectFold_some _ _ _ _ hre with hacc | ⟨c, hc, hr, _⟩
  · cases hacc
  · obtain ⟨hne, hall⟩ := findContoursM_P c hc
    exact ⟨c, hne, hall, hr⟩

end RsCam

namespace RsCam

/-! ## Remaining concrete inputs and small helpers. -/

/-- Region of 50 pixels: the rectangle `[2,6] × [2,11]`. -/
def regionA (x y : Nat) : Bool := decide (2 ≤ x ∧ x ≤ 6 ∧ 2 ≤ y ∧ y ≤ 11)

/-- Region of 200 pixels: the rectangle `[10,29] × [15,24]`. -/
def regionB (x y : Nat) : Bool := decide (10 ≤ x ∧ x ≤ 29 ∧ 15 ≤ y ∧ y ≤ 24)

/-- Mask with the two disjoint regions of 50 and 200 pixels. -/
def twoRegionMask (x y : Nat) : Bool := regionA x y || regionB x y

/-- Mask with two disjoint 5×5 squares: equal contour areas, for the
first-found tie break. -/
def tieMask (x y : Nat) : Bool :=
  decide ((2 ≤ x ∧ x ≤ 6 ∧ 2 ≤ y ∧ y ≤ 6) ∨ (20 ≤ x ∧ x ≤ 24 ∧ 20 ≤ y ∧ y ≤ 24))

/-- An `L`-shaped mask: a `3×20` bar and a `20×3` bar sharing their corner
(111 pixels), whose pixel-coordinate mean is far from its bounding-box
centre. -/
def lMask (x y : Nat) : Bool :=
  decide ((2 ≤ x ∧ x ≤ 4 ∧ 2 ≤ y ∧ y ≤ 21) ∨ (2 ≤ x ∧ x ≤ 21 ∧ 2 ≤ y ∧ y ≤ 4))

/-- Number of foreground pixels of a mask. -/
def maskCount (w h : Nat) (m : Nat → Nat → Bool) : Nat :=
  (List.range h).foldl
    (fun acc y => (List.range w).foldl (fun acc2 x => if m x y then acc2 + 1 else acc2) acc) 0

/-- Sum of the x coordinates of the foreground pixels of a mask. -/
def maskSumX (w h : Nat) (m : Nat → Nat → Bool) : Nat :=
  (List.range h).foldl
    (fun acc y => (List.range w).foldl (fun acc2 x => if m x y then acc2 + x else acc2) acc) 0

/-- Sum of the y coordinates of the foreground pixels of a mask. -/
def maskSumY (w h : Nat) (m : Nat → Nat → Bool) : Nat :=
  (List.range h).foldl
    (fun acc y => (List.range w).foldl (fun acc2 x => if m x y then acc2 + y else acc2) acc) 0

/-- Whether the loop has stopped. -/
def isStopped : LoopState → Bool
  | .running _ => false
  | .stopped _ _ => true

/-! ## The claim's border policy, for comparison (C7).

The claim states that the noise filter treats out-of-bounds pixels as
background; the source instead passes `BORDER_DEFAULT`, i.e. reflection. -/

/-- Modelled from the claim's stated border policy: erosion sampling
out-of-range coordinates as background (the source reflects instead). -/
def erodeZeroPad (w h : Nat) (m : Nat → Nat → Bool) (x y : Nat) : Bool :=
  kOffsets.all fun d => sampleM w h m ((x : Int) + d.1, (y : Int) + d.2)

/-- Modelled from the claim's stated border policy: dilation sampling
out-of-range coordinates as background (the source reflects instead). -/
def dilateZeroPad (w h : Nat) (m : Nat → Nat → Bool) (x y : Nat) : Bool :=
  kOffsets.any fun d => sampleM w h m ((x : Int) + d.1, (y : Int) + d.2)

/-- Modelled from the claim's stated border policy: the open-close filter
with out-of-bounds pixels treated as background. -/
def noiseFilterZeroPad (w h : Nat) (m : Nat → Nat → Bool) : Nat → Nat → Bool :=
  erodeZeroPad w h (dilateZeroPad w h (dilateZeroPad w h (erodeZeroPad w h m)))

/-! ## Constant masks through the noise filter. -/

lemma erodeM_allOnes (w h x y : Nat) : erodeM w h (fun _ _ => true) x y = true := by
  simp [erodeM, kOffsets]

lemma erodeM_top {w h : Nat} {m : Nat → Nat → Bool} (hm : ∀ a b, m a b = true) (x y : Nat) :
    erodeM w h m x y = true := by
  simp [erodeM, kOffsets, hm]

lemma dilateM_top {w h : Nat} {m : Nat → Nat → Bool} (hm : ∀ a b, m a b = true) (x y : Nat) :
    dilateM w h m x y = true := by
  simp [dilateM, kOffsets, hm]

/-- With the source's reflected border, an all-foreground mask passes the
open-close filter unchanged: no erosion happens at the image edge. -/
lemma nf_allOnes (w h x y : Nat) : noiseFilter w h (fun _ _ => true) x y = true := by
  show erodeM w h (dilateM w h (dilateM w h (erodeM w h (fun _ _ => true)))) x y = true
  exact erodeM_top
    (fun a b => dilateM_top
      (fun a2 b2 => dilateM_top (fun a3 b3 => erodeM_allOnes w h a3 b3) a2 b2) a b) x y

lemma erodeM_bot {w h : Nat} {m : Nat → Nat → Bool} (hm : ∀ a b, m a b = false) (x y : Nat) :
    erodeM w h m x y = false := by
  simp [erodeM, kOffsets, hm]

lemma dilateM_bot {w h : Nat} {m : Nat → Nat → Bool} (hm : ∀ a b, m a b = false) (x y : Nat) :
    dilateM w h m x y = false := by
  simp [dilateM, kOffsets, hm]

lemma nf_bot {w h : Nat} {m : Nat → Nat → Bool} (hm : ∀ a b, m a b = false) (x y : Nat) :
    noiseFilter w h m x y = false := by
  show erodeM w h (dilateM w h (dilateM w h (erodeM w h m))) x y = false
  exact erodeM_bot
    (fun a b => dilateM_bot
      (fun a2 b2 => dilateM_bot (fun a3 b3 => erodeM_bot hm a3 b3) a2 b2) a b) x y

/-- An all-black frame segments to the all-background mask. -/
lemma redMask_black : ∀ a b : Nat, redMask blackFrame a b = false := by
  intro a b
  simp only [redMask, blackFrame]
  decide

lemma scanStep_false {g : Pt → Bool} {fuel : Nat} (hg : ∀ p, g p = false)
    (cs : List (List Pt)) (p : Pt) : scanStep g fuel cs p = cs := by
  unfold scanStep
  rw [if_neg]
  intro hcon
  rw [hg p] at hcon
  exact Bool.false_ne_true hcon.1

lemma scanRow_false {g : Pt → Bool} {fuel : Nat} (hg : ∀ p, g p = false) :
    ∀ (w y : Nat) (cs : List (List Pt)), scanRow g fuel w y cs = cs := by
  intro w y cs
  unfold scanRow
  generalize List.range w = l
  induction l generalizing cs with
  | nil => rfl
  | cons x l ih =>
    simp only [List.foldl_cons]
    rw [scanStep_false hg]
    exact ih cs

lemma scanRows_false {g : Pt → Bool} {fuel w : Nat} (hg : ∀ p, g p = false) :
    ∀ (n y0 : Nat) (cs : List (List Pt)), scanRows g fuel w y0 n cs = cs := by
  intro n
  induction n with
  | zero => intro y0 cs; rfl
  | succ n ih =>
    intro y0 cs
    show scanRows g fuel w (y0 + 1) n (scanRow g fuel w y0 cs) = cs
    rw [scanRow_false hg w y0 cs, ih]

/-- The full pipeline reports no detection on an all-black frame of any
size. -/
lemma processImg_black : ∀ w h : Nat, processImg w h blackFrame = none := by
  intro w h
  unfold processImg regionExtract findContoursM
  have hg : ∀ p : Pt, sampleM w h (noiseFilter w h (redMask blackFrame)) p = false := by
    intro p
    unfold sampleM
    rw [nf_bot redMask_black p.1.toNat p.2.toNat]
    exact Bool.and_false _
  rw [scanRows_false hg h 0 []]
  rfl

end RsCam

namespace RsCam

/-! ## The claims. -/

/-- C1 (amended): on the synthetic 100×100 frame with the solid red square
on rows and columns 10–20, the full pipeline reports the bounding rect
`x=10, y=10, width=11, height=11` — i.e. corners `(10,10)` and `(20,20)` —
and centroid `(15,15)` as claimed, but the reported area is the enclosed
contour area `94.0` (doubled here: 188), not the pixel count 121. -/
theorem C1_red_square_summary :
    processImg 100 100 redSquareFrame = some (⟨10, 10, 11, 11⟩, 188) ∧
    (10 : Int) + 11 - 1 = 20 ∧
    centroid ⟨10, 10, 11, 11⟩ = (15, 15) ∧
    (188 : Nat) = 2 * 94 :=
  ⟨red_square_detect, rfl, rfl, rfl⟩

/-- C1 counterexample: the area the pipeline reports for the red square is
94.0, not 121 — `contourArea` integrates the boundary polygon (and the
elliptical noise filter clips the corners), so it is not the pixel count. -/
theorem C1_red_square_area_counterexample :
    processImg 100 100 redSquareFrame = some (⟨10, 10, 11, 11⟩, 188) ∧
    (188 : Nat) ≠ 2 * 121 :=
  ⟨red_square_detect, by decide⟩

/-- C2 (amended): a pixel of 8-bit HSV value `(h, s, v)` is classified
foreground iff `s ≥ 120`, `v ≥ 70`, and `h` lies in `[0,10] ∪ [170,180]`
(the second range written `[170,180]` in the source's `inRange` call;
8-bit hue never exceeds 179).  The claim's second sub-range `[160,179]`
is wrong: the source's lower bound is 170. -/
theorem C2_hue_ranges_amended :
    ∀ hh ss vv : Nat, ss ≤ 255 → vv ≤ 255 →
    (redHsv ⟨hh, ss, vv⟩ = true ↔
      (120 ≤ ss ∧ 70 ≤ vv ∧ (hh ≤ 10 ∨ (170 ≤ hh ∧ hh ≤ 180)))) := by
  intro hh ss vv hs hv
  simp only [redHsv, inRange1, inRange2, Bool.or_eq_true, decide_eq_true_eq]
  omega

/-- Witness for C2: a pure red pixel with hue 5 and full saturation and
value is classified foreground. -/
theorem C2_hue_ranges_amended_witness :
    (200 : Nat) ≤ 255 ∧ (200 : Nat) ≤ 255 ∧
    (redHsv ⟨5, 200, 200⟩ = true ↔
      (120 ≤ 200 ∧ 70 ≤ 200 ∧ (5 ≤ 10 ∨ (170 ≤ 5 ∧ 5 ≤ 180)))) :=
  ⟨by decide, by decide, C2_hue_ranges_amended 5 200 200 (by decide) (by decide)⟩

/-- C2 counterexample: BGR pixel `(127, 0, 255)` has 8-bit HSV
`(165, 255, 255)`; its hue 165 lies in the claim's `[160,179]` with
saturation and value far above the floors, yet the source classifies it
background (165 is outside both `[0,10]` and `[170,180]`). -/
theorem C2_hue_range_counterexample :
    bgr2hsv 127 0 255 = ⟨165, 255, 255⟩ ∧
    (160 ≤ 165 ∧ 165 ≤ 179 ∧ 120 ≤ 255 ∧ 70 ≤ 255) ∧
    redPixel 127 0 255 = false := by
  refine ⟨by decide, by decide, by decide⟩

/-- On the tie mask the selection keeps the bottom square: `findContours`
returns the contours in reverse discovery order, so under the strict `>`
comparison an equal-area tie goes to the last-found region. -/
lemma tie_select : regionExtract 40 40 tieMask = some (⟨20, 20, 5, 5⟩, 32) := by rfl

/-- C3 counterexample: the two 5×5 squares of `tieMask` have equal contour
area, and the selection returns the bottom one at `(20,20)`, not the
first-found (topmost) square at `(2,2)` that the claimed row-major
first-found tie-break would pick. -/
theorem C3_tie_break_counterexample :
    regionExtract 40 40 tieMask = some (⟨20, 20, 5, 5⟩, 32) ∧
    (⟨20, 20, 5, 5⟩ : Rect) ≠ ⟨2, 2, 5, 5⟩ :=
  ⟨tie_select, by decide⟩

/-- C3 (amended): the extractor keeps the contour with the largest
enclosed area — the 200-pixel rectangle beats the 50-pixel one; equal
areas keep the last-found (bottom-most) region under the row-major scan,
because `findContours` returns top-level contours in reverse discovery
order and the comparison is strict; an all-black frame or a mask with no
foreground yields no detection. -/
theorem C3_region_selection_amended :
    regionExtract 40 40 twoRegionMask = some (⟨10, 15, 20, 10⟩, 342) ∧
    maskCount 40 40 regionA = 50 ∧
    maskCount 40 40 regionB = 200 ∧
    regionExtract 40 40 tieMask = some (⟨20, 20, 5, 5⟩, 32) ∧
    (∀ w h : Nat, processImg w h blackFrame = none) ∧
    regionExtract 40 40 (fun _ _ => false) = none :=
  ⟨by rfl, by rfl, by rfl, tie_select, processImg_black, by rfl⟩

/-- C4 (amended): the centroid the source reports is the truncated
midpoint of the bounding-box corners, `((x0 + x1 + 1) / 2, (y0 + y1 + 1) / 2)`
— a bounding-box centre, not the arithmetic mean of the region's pixel
coordinates. -/
theorem C4_centroid_amended :
    ∀ (w h : Nat) (m : Nat → Nat → Bool) (r : Rect) (a : Nat),
    regionExtract w h m = some (r, a) →
    centroid r = ((r.x + (r.x + r.width - 1) + 1) / 2, (r.y + (r.y + r.height - 1) + 1) / 2) := by
  intro w h m r a hre
  obtain ⟨c, hne, hall, hr⟩ := regionExtract_provenance hre
  have hb := @boundingRect_spec (w : Int) (h : Int) c hne
    (fun q hq => sampleM_true_bounds (hall q hq))
  subst hr
  unfold centroid
  rw [tdiv_two_nonneg _ (by omega), tdiv_two_nonneg _ (by omega)]
  simp only [Prod.mk.injEq]
  constructor <;> omega

/-- Witness for C4: on the all-foreground 5×5 mask the selected rect is
the whole image and the reported centroid is the corner midpoint. -/
theorem C4_centroid_amended_witness :
    regionExtract 5 5 (fun _ _ => true) = some (⟨0, 0, 5, 5⟩, 32) ∧
    centroid ⟨0, 0, 5, 5⟩ =
      (((0 : Int) + ((0 : Int) + 5 - 1) + 1) / 2, ((0 : Int) + ((0 : Int) + 5 - 1) + 1) / 2) :=
  ⟨by rfl, C4_centroid_amended 5 5 (fun _ _ => true) ⟨0, 0, 5, 5⟩ 32 (by rfl)⟩

/-- C4 counterexample: for the 111-pixel `L`-shaped region the reported
centroid is the bounding-box centre `(12,12)`, while the arithmetic mean
of the region's pixel coordinates is `843/111 ≈ 7.59` — `7` truncated,
`8` rounded — in both axes.  The reported value matches neither. -/
theorem C4_centroid_counterexample :
    regionExtract 30 30 lMask = some (⟨2, 2, 20, 20⟩, 145) ∧
    centroid ⟨2, 2, 20, 20⟩ = (12, 12) ∧
    maskSumX 30 30 lMask = 843 ∧ maskSumY 30 30 lMask = 843 ∧
    maskCount 30 30 lMask = 111 ∧
    843 / 111 = 7 ∧ (843 + 111 / 2) / 111 = 8 ∧
    (12 : Int) ≠ 7 ∧ (12 : Int) ≠ 8 :=
  ⟨by rfl, by rfl, by rfl, by rfl, by rfl, by rfl, by rfl, by decide, by decide⟩

/-- C5: a pulled sample whose buffer is shorter than `w*h*3` increments
the frame counter, is skipped with a warning, and the loop proceeds to the
next acquisition; the outcome is `skippedShort` irrespective of the buffer
contents or the key, so the frame never reaches conversion or
segmentation. -/
theorem C5_short_buffer_skip :
    ∀ (w h n : Nat) (data : List Nat) (key : Int),
    data.length < w * h * 3 →
    loopStep w h (.running n) (.sample data key) = (.running (n + 1), .skippedShort) := by
  intro w h n data key hlen
  simp only [loopStep]
  rw [if_pos hlen]

/-- Witness for C5: an empty buffer on a 1×1 frame is skipped. -/
theorem C5_short_buffer_skip_witness :
    ([] : List Nat).length < 1 * 1 * 3 ∧
    loopStep 1 1 (.running 0) (.sample [] 0) = (.running 1, .skippedShort) :=
  ⟨by decide, C5_short_buffer_skip 1 1 0 [] 0 (by decide)⟩

/-- C6 (amended): every `pull_sample` failure — the source cannot tell a
transient failure from a terminal one — leaves the loop running with the
counter unchanged and is retried after a fixed 50 ms sleep; no transition
to a stopped state happens on acquisition failure. -/
theorem C6_pull_error_retry_amended :
    ∀ (w h n : Nat), loopStep w h (.running n) .pullErr = (.running n, .retrySleep) := by
  intro w h n
  rfl

/-- C6 counterexample: after a pull error (the only observable form of a
terminal stream loss) the loop is still running — it does not transition
to `Stopped`, and no outcome distinct from the quit-key and frame-limit
stops exists. -/
theorem C6_pull_error_counterexample :
    loopStep 640 480 (.running 5) .pullErr = (.running 5, .retrySleep) ∧
    isStopped (loopStep 640 480 (.running 5) .pullErr).1 = false :=
  ⟨rfl, rfl⟩

/-- C7 (amended): the source passes `BORDER_DEFAULT = BORDER_REFLECT_101`
to `morphologyEx`, so out-of-bounds pixels are reflected, not treated as
background; consequently an all-foreground mask — which touches every
border — passes the open-close filter unchanged at every pixel of any
image size. -/
theorem C7_border_policy_amended :
    ∀ (w h x y : Nat), noiseFilter w h (fun _ _ => true) x y = true :=
  nf_allOnes

/-- C7 counterexample: on the all-foreground 8×8 mask the source's filter
keeps the corner pixel `(0,0)` foreground, while the claim's
out-of-bounds-as-background policy erodes it away — the two policies are
different functions. -/
theorem C7_border_policy_counterexample :
    noiseFilter 8 8 (fun _ _ => true) 0 0 = true ∧
    noiseFilterZeroPad 8 8 (fun _ _ => true) 0 0 = false :=
  ⟨nf_allOnes 8 8 0 0, by rfl⟩

/-- C8 (amended): the noise filter is idempotent on the solid square blob
— applying it twice equals applying it once at every pixel — but it is
not the identity on it: the first application already clips two pixels at
each corner (see the counterexample). -/
theorem C8_noise_filter_idempotent_amended :
    ∀ x y : Fin 100,
    noiseFilter 100 100 (noiseFilter 100 100 sqMask) x y = noiseFilter 100 100 sqMask x y := by
  intro x y
  have hfil : ∀ a b, a < 100 → b < 100 → noiseFilter 100 100 sqMask a b = oMask a b :=
    nf_of_sq (fun a b _ _ => rfl)
  rw [nf_of_o hfil x y x.isLt y.isLt, hfil x y x.isLt y.isLt]

/-- C8 counterexample: the filter does not return the clean rectangular
blob unchanged — the corner pixel `(10,10)` of the solid square is erased
by the opening with the 5×5 elliptical kernel. -/
theorem C8_noise_filter_identity_counterexample :
    noiseFilter 100 100 sqMask 10 10 = false ∧ sqMask 10 10 = true := by
  constructor
  · rw [nf_of_sq (fun a b _ _ => rfl) 10 10 (by omega) (by omega)]
    rfl
  · rfl

/-- C9: every detection selected from a mask satisfies the bounding-box
invariants: corners ordered, both inside `[0,w) × [0,h)`, and the centroid
inside the box. -/
theorem C9_detection_invariants :
    ∀ (w h : Nat) (m : Nat → Nat → Bool) (r : Rect) (a : Nat),
    regionExtract w h m = some (r, a) →
    0 ≤ r.x ∧ 0 ≤ r.y ∧
    r.x + r.width - 1 < (w : Int) ∧ r.y + r.height - 1 < (h : Int) ∧
    r.x ≤ r.x + r.width - 1 ∧ r.y ≤ r.y + r.height - 1 ∧
    r.x ≤ (centroid r).1 ∧ (centroid r).1 ≤ r.x + r.width - 1 ∧
    r.y ≤ (centroid r).2 ∧ (centroid r).2 ≤ r.y + r.height - 1 := by
  intro w h m r a hre
  obtain ⟨c, hne, hall, hr⟩ := regionExtract_provenance hre
  have hb := @boundingRect_spec (w : Int) (h : Int) c hne
    (fun q hq => sampleM_true_bounds (hall q hq))
  subst hr
  unfold centroid
  rw [tdiv_two_nonneg _ (by omega), tdiv_two_nonneg _ (by omega)]
  dsimp only
  omega

/-- Witness for C9: the detection on the all-foreground 5×5 mask satisfies
all the invariants. -/
theorem C9_detection_invariants_witness :
    regionExtract 5 5 (fun _ _ => true) = some (⟨0, 0, 5, 5⟩, 32) ∧
    ((0 : Int) ≤ 0 ∧ (0 : Int) ≤ 0 ∧
     (0 : Int) + 5 - 1 < (5 : Int) ∧ (0 : Int) + 5 - 1 < (5 : Int) ∧
     (0 : Int) ≤ 0 + 5 - 1 ∧ (0 : Int) ≤ 0 + 5 - 1 ∧
     (0 : Int) ≤ (centroid ⟨0, 0, 5, 5⟩).1 ∧ (centroid ⟨0, 0, 5, 5⟩).1 ≤ 0 + 5 - 1 ∧
     (0 : Int) ≤ (centroid ⟨0, 0, 5, 5⟩).2 ∧ (centroid ⟨0, 0, 5, 5⟩).2 ≤ 0 + 5 - 1) :=
  ⟨by rfl, C9_detection_invariants 5 5 (fun _ _ => true) ⟨0, 0, 5, 5⟩ 32 (by rfl)⟩

/-- C10 (amended): the counter is incremented on every pulled sample,
including malformed ones, but the `frame_count == 361` check sits after
the `continue` of the malformed-buffer branch: the loop stops at 361 only
when the 361st sample is well formed and no quit key is pressed; a
malformed 361st sample leaves the loop running past the limit. -/
theorem C10_frame_limit_amended :
    ∀ (w h n : Nat) (data : List Nat) (key : Int), n + 1 = 361 →
    (data.length < w * h * 3 →
      loopStep w h (.running n) (.sample data key) = (.running 361, .skippedShort)) ∧
    (¬ data.length < w * h * 3 → ¬(key = 113 ∨ key = 81) →
      (loopStep w h (.running n) (.sample data key)).1 = .stopped .frameLimit 361) := by
  intro w h n data key h361
  constructor
  · intro hlen
    simp only [loopStep]
    rw [if_pos hlen, h361]
  · intro hlen hkey
    simp only [loopStep]
    rw [if_neg hlen, if_neg hkey, if_pos h361, h361]

/-- Witness for C10: the 361st sample, well formed on a 1×1 frame with no
quit key, stops the loop with the frame-limit reason. -/
theorem C10_frame_limit_amended_witness :
    (360 + 1 = 361) ∧ ¬ ([0, 0, 0] : List Nat).length < 1 * 1 * 3 ∧
    ¬ ((0 : Int) = 113 ∨ (0 : Int) = 81) ∧
    (loopStep 1 1 (.running 360) (.sample [0, 0, 0] 0)).1 = .stopped .frameLimit 361 :=
  ⟨rfl, by decide, by decide,
    (C10_frame_limit_amended 1 1 360 [0, 0, 0] 0 rfl).2 (by decide) (by decide)⟩

/-- C10 counterexample: when the 361st pulled sample is malformed, the
`continue` skips the limit check: the loop is still running with counter
361, and the next (362nd) sample is pulled and fully processed. -/
theorem C10_frame_limit_counterexample :
    loopStep 1 1 (.running 360) (.sample [] 0) = (.running 361, .skippedShort) ∧
    (loopStep 1 1 (.running 361) (.sample [0, 0, 0] 0)).1 = .running 362 :=
  ⟨rfl, rfl⟩

end RsCam
